import Mathlib

set_option maxRecDepth 10000

/-!
# Verification of the Pratiti insight-generation script

Shallow embedding of `src/streamlit_app.py` (a Streamlit single-page app).

Modelling conventions:
* Python strings are Lean `String` (or `List Char` where character-level
  scanning is needed).
* The JSON store file `insights.json` is modelled as
  `Option (List InsightRecord)`: `none` is a missing file, `some l` is a file
  whose JSON contents deserialize to the record list `l`.  `json.dump` /
  `json.load` round-tripping is modelled as the identity on the record list.
* The remote OpenRouter endpooint is modelled as an oracle
  `Nat → Except Unit String`: the n-th remote call of a script run either
  returns a message content string (`.ok`) or raises a transport error
  (`.error ()`, covering `requests` exceptions and `raise_for_status`).
* A Streamlit run executes the whole script top-to-bottom; `scriptRun`
  models one such run (article text, whether the generate button was
  pressed, the oracle, and the store file are its inputs).
* Python `str.strip()` is modelled on ASCII whitespace; `re` word
  characters (`\w`) and `IGNORECASE` are modelled for ASCII, matching the
  claim instances.  Escape processing that Python's `re.sub` would apply to
  a replacement string containing backslashes is not modelled (no claim
  depends on it).
-/

/-- ASCII whitespace recognised by Python `str.strip()`. -/
def isPySpace (c : Char) : Bool :=
  c == ' ' || c == '\t' || c == '\n' || c == '\r' || c == '\u000b' || c == '\u000c'

/-- Python `s.strip()` on a character list: drop whitespace from both ends. -/
def pyStrip (s : List Char) : List Char :=
  ((s.dropWhile isPySpace).reverse.dropWhile isPySpace).reverse

/-- Python `s.strip()` on strings. -/
def pyStripStr (s : String) : String := ⟨pyStrip s.data⟩

/-- Python `s.split(sep)` for a one-character separator: `"".split(sep)`
is `[""]`, and separators delimit (possibly empty) fields. -/
def splitChar (sep : Char) : List Char → List (List Char)
  | [] => [[]]
  | c :: rest =>
    if c = sep then [] :: splitChar sep rest
    else
      match splitChar sep rest with
      | [] => [[c]]
      | l :: ls => (c :: l) :: ls

/-- Python `sep.join(pieces)` for a one-character separator. -/
def joinChar (sep : Char) : List (List Char) → List Char
  | [] => []
  | [l] => l
  | l :: ls => l ++ sep :: joinChar sep ls

/-- One persisted insight entry: the dict passed to `save_insight`
(`timestamp`, `article`, `insight`, `research`, `why_matters`, `tags`,
`sentiment`). -/
structure InsightRecord where
  timestamp : String
  article : String
  insight : String
  research : String
  why_matters : String
  tags : List String
  sentiment : String
deriving DecidableEq, Repr

/-- `load_insights()`: if the store file exists, return its deserialized
contents, else the empty list. -/
def load_insights (file : Option (List InsightRecord)) : List InsightRecord :=
  match file with
  | some l => l
  | none => []

/-- `save_insight(entry)`: read the full current list, append the entry,
and rewrite the whole file. -/
def save_insight (file : Option (List InsightRecord)) (entry : InsightRecord) :
    Option (List InsightRecord) :=
  some (load_insights file ++ [entry])

/-- `generate_prompt(article_text, research_context="")`: the narrative
insight prompt template (the Python default `""` for `research_context` is
modelled by passing the argument explicitly). -/
def generate_prompt (article_text : String) (research_context : String) : String :=
  "\nYou are Pratiti â€“ an advanced financial research analyst. Your job is to read the news article below and produce a single blended narrative insight.\n\nYour insight must include:\n- A one-line summary of \"Why This Matters\"\n- Contextual summary of the article\n- Historical or global comparisons if relevant\n- Sector or market impact\n- Forward-looking commentary with reasoning\n\nArticle:\n"
    ++ article_text
    ++ "\n\nRelevant research context:\n"
    ++ research_context
    ++ "\n"

/-- `generate_research_prompt(article_text)`: the research discovery
prompt template. -/
def generate_research_prompt (article_text : String) : String :=
  "\nYou are a senior research analyst. Based on the article below, list the most relevant and credible publicly available research papers, policy briefs, or news articles from the internet that provide supporting context or critical background.\n\nEach recommendation must include:\n- Title or brief summary\n- Source\n- Link\n\nDo not invent links. Only suggest links that are available publicly and are highly relevant.\n\nArticle:\n"
    ++ article_text
    ++ "\n"

/-- `generate_tag_prompt(article_text)`: the tagging prompt template. -/
def generate_tag_prompt (article_text : String) : String :=
  "\nYou are a financial analyst assistant. Categorize the article below into relevant business topics or sectors such as Finance, Energy, Technology, Policy, ESG, etc. \nRespond with a comma-separated list of 3 to 6 tags.\n\nArticle:\n"
    ++ article_text
    ++ "\n"

/-- `generate_sentiment_prompt(article_text)`: the sentiment prompt
template. -/
def generate_sentiment_prompt (article_text : String) : String :=
  "\nAnalyze the overall sentiment of the following article. Classify it as Positive, Negative, or Neutral. Provide only the label.\n\nArticle:\n"
    ++ article_text
    ++ "\n"

/-- `generate_explanation_prompt(insight)`: the explanation prompt
template. -/
def generate_explanation_prompt (insight : String) : String :=
  "\nExplain how the following insight was derived, focusing only on:\n- Sector and market impact\n- Forward-looking commentary with reasoning\n\nFor each, identify what parts of the article contributed to the conclusions, and any assumptions or signals used.\n\nInsight:\n"
    ++ insight
    ++ "\n"

/-- `[tag.strip() for tag in tags_response.split(",")]`. -/
def pyTags (tags_response : String) : List String :=
  (splitChar ',' tags_response.data).map (fun l => ⟨pyStrip l⟩)

/-- `insight.split("\n")` as a list of strings. -/
def insightLines (insight : String) : List String :=
  (splitChar '\n' insight.data).map (fun l => ⟨l⟩)

/-- `why_matters = insight_lines[0] if insight_lines else "N/A"`. -/
def deriveWhyMatters (insight : String) : String :=
  match insightLines insight with
  | [] => "N/A"
  | l :: _ => l

/-- `full_insight = "\n".join(insight_lines)`. -/
def deriveFullInsight (insight : String) : String :=
  ⟨joinChar '\n' (splitChar '\n' insight.data)⟩

-- ## Basic lemmas about splitting and joining

theorem splitChar_ne_nil (sep : Char) (t : List Char) : splitChar sep t ≠ [] := by
  cases t with
  | nil => simp [splitChar]
  | cons c rest =>
    simp only [splitChar]
    by_cases h : c = sep
    · simp [h]
    · simp only [if_neg h]
      cases splitChar sep rest <;> simp

theorem joinChar_splitChar (sep : Char) (t : List Char) :
    joinChar sep (splitChar sep t) = t := by
  induction t with
  | nil => simp [splitChar, joinChar]
  | cons c rest ih =>
    simp only [splitChar]
    by_cases h : c = sep
    · subst h
      simp only [if_pos rfl]
      rcases hs : splitChar c rest with _ | ⟨l, ls⟩
      · exact absurd hs (splitChar_ne_nil c rest)
      · rw [hs] at ih
        simp [joinChar, ih]
    · simp only [if_neg h]
      rcases hs : splitChar sep rest with _ | ⟨l, ls⟩
      · exact absurd hs (splitChar_ne_nil sep rest)
      · rw [hs] at ih
        cases ls with
        | nil => simp_all [joinChar]
        | cons l2 ls' => simp_all [joinChar]

theorem splitChar_head (sep : Char) (t : List Char) :
    (splitChar sep t).head? = some (t.takeWhile (fun c => c != sep)) := by
  induction t with
  | nil => simp [splitChar]
  | cons c rest ih =>
    simp only [splitChar]
    by_cases h : c = sep
    · simp [h, List.takeWhile]
    · simp only [if_neg h]
      rcases hs : splitChar sep rest with _ | ⟨l, ls⟩
      · exact absurd hs (splitChar_ne_nil sep rest)
      · rw [hs] at ih
        simp only [List.head?] at ih
        have hcs : (c != sep) = true := by simp [h]
        simp only [Option.some.injEq] at ih
        simp [List.takeWhile, ih, hcs]

-- ## Keyword highlighting (`highlight_keywords`, via `re.sub`)

/-- A regex word character (`\w`, ASCII range): `[0-9A-Za-z_]`. -/
def isWordChar (c : Char) : Bool :=
  (48 ≤ c.toNat && c.toNat ≤ 57) || (65 ≤ c.toNat && c.toNat ≤ 90) ||
    (97 ≤ c.toNat && c.toNat ≤ 122) || c.toNat == 95

/-- Whether a position (given by the suffix starting there) holds a word
character; the end of the string counts as a non-word character. -/
def wordB : List Char → Bool
  | [] => false
  | c :: _ => isWordChar c

/-- ASCII case-folding key: `IGNORECASE` comparison identifies `A-Z` with
`a-z`. -/
def lowerId (c : Char) : Nat :=
  if 65 ≤ c.toNat ∧ c.toNat ≤ 90 then c.toNat + 32 else c.toNat

/-- Case-insensitive "is the first list a prefix of the second". -/
def ciPref : List Char → List Char → Bool
  | [], _ => true
  | _ :: _, [] => false
  | a :: as, b :: bs => (lowerId a == lowerId b) && ciPref as bs

/-- Whether the pattern `\b<k-literal>\b` (with `IGNORECASE`) matches at the
current position.  `prevW` says whether the character just before the
position is a word character; `t` is the suffix starting at the position.
`\b` holds where exactly one side is a word character. -/
def matchWB (k : List Char) (prevW : Bool) (t : List Char) : Bool :=
  (prevW != wordB t) && ciPref k t &&
    ((match k with
      | [] => prevW
      | _ :: _ => wordB (t.drop (k.length - 1))) != wordB (t.drop k.length))

/-- `re.sub(pattern, rep, text)` for the fixed-width pattern
`\b<k-literal>\b` with `IGNORECASE`: scan left to right, replace each
leftmost non-overlapping match with `rep`, and resume after the matched
region (after an empty match the next character is copied verbatim). -/
def reSub (k rep : List Char) : Bool → List Char → List Char
  | prevW, [] => if matchWB k prevW [] then rep else []
  | prevW, c :: rest =>
    if matchWB k prevW (c :: rest) then
      if hk : k = [] then rep ++ c :: reSub k rep (isWordChar c) rest
      else
        rep ++ reSub k rep (wordB ((c :: rest).drop (k.length - 1)))
          ((c :: rest).drop k.length)
    else c :: reSub k rep (isWordChar c) rest
termination_by _ t => t.length
decreasing_by
  all_goals simp [List.length_drop]
  all_goals first
    | omega
    | (have hkp := List.length_pos.mpr hk
       omega)

/-- The replacement string `f"**{word}**"`. -/
def wrapRep (w : List Char) : List Char := '*' :: '*' :: w ++ ['*', '*']

/-- `highlight_keywords(text, keywords)`: fold `re.sub` over the keyword
list, rewrapping each whole-word case-insensitive occurrence. -/
def highlight_keywords (text : String) (keywords : List String) : String :=
  keywords.foldl (fun t w => ⟨reSub w.data (wrapRep w.data) false t.data⟩) text

-- ## The script run (sentiment sidebar and the generation block)

/-- The five remote model calls the script can make, by purpose. -/
inductive RemoteCall where
  | sentimentC
  | researchC
  | tagC
  | narrativeC
  | explanationC
deriving DecidableEq, Repr

/-- `query_openrouter`: a transport error or non-success status propagates
as an exception (`.error`); otherwise the first choice's message content is
returned whitespace-stripped. -/
def query_openrouter (resp : Except Unit String) : Except Unit String :=
  match resp with
  | .ok s => .ok (pyStripStr s)
  | .error e => .error e

/-- What the `Generate Insight with Research` block leaves behind: the
remote calls it made in order, the entry passed to `save_insight` (if
reached), the resulting store file, the highlighted insight rendered to the
page, and whether the `except` branch displayed an error. -/
structure GenOut where
  calls : List RemoteCall
  saved : Option InsightRecord
  store : Option (List InsightRecord)
  highlighted : Option String
  errorShown : Bool
deriving Repr

/-- The body of `if article_text and st.button(...)`: research → tags →
narrative → explanation, then `save_insight`; any raised transport error
aborts the remaining steps and is shown via `st.error`. `i` is the index of
the next remote call of this script run. -/
def generateBlock (article_text sentiment now : String)
    (oracle : Nat → Except Unit String) (i : Nat)
    (file : Option (List InsightRecord)) : GenOut :=
  match query_openrouter (oracle i) with
  | .error _ => ⟨[.researchC], none, file, none, true⟩
  | .ok research_output =>
    match query_openrouter (oracle (i + 1)) with
    | .error _ => ⟨[.researchC, .tagC], none, file, none, true⟩
    | .ok tags_response =>
      let tags := pyTags tags_response
      match query_openrouter (oracle (i + 2)) with
      | .error _ => ⟨[.researchC, .tagC, .narrativeC], none, file, none, true⟩
      | .ok insight =>
        let why_matters := deriveWhyMatters insight
        let full_insight := deriveFullInsight insight
        match query_openrouter (oracle (i + 3)) with
        | .error _ =>
          ⟨[.researchC, .tagC, .narrativeC, .explanationC], none, file, none, true⟩
        | .ok _explanation =>
          let keywords := tags ++
            ["growth", "inflation", "fiscal deficit", "trade", "market", "RBI", "Fed"]
          let highlighted := highlight_keywords full_insight keywords
          let entry : InsightRecord :=
            ⟨now, article_text, full_insight, research_output, why_matters, tags, sentiment⟩
          ⟨[.researchC, .tagC, .narrativeC, .explanationC], some entry,
            save_insight file entry, some highlighted, false⟩

/-- What one top-to-bottom Streamlit run of the script leaves behind. -/
structure ScriptOut where
  calls : List RemoteCall
  sentiment : String
  saved : Option InsightRecord
  store : Option (List InsightRecord)
  highlighted : Option String
  errorShown : Bool
deriving Repr

/-- One script run: the eager sentiment block (guarded by a non-empty
article, its exception recovered to a placeholder), then the generation
block when the button was pressed. -/
def scriptRun (article_text : String) (button : Bool) (now : String)
    (oracle : Nat → Except Unit String) (file : Option (List InsightRecord)) :
    ScriptOut :=
  if article_text = "" then
    ⟨[], "", none, file, none, false⟩
  else
    let sentiment :=
      match query_openrouter (oracle 0) with
      | .ok s => s
      | .error _ => "Error detecting sentiment."
    if button then
      let g := generateBlock article_text sentiment now oracle 1 file
      ⟨RemoteCall.sentimentC :: g.calls, sentiment, g.saved, g.store,
        g.highlighted, g.errorShown⟩
    else
      ⟨[RemoteCall.sentimentC], sentiment, none, file, none, false⟩

-- ## Auxiliary lemmas

theorem midSegment {α : Type} (l₁ l₂ l₃ : List α) : l₂ <:+: l₁ ++ (l₂ ++ l₃) :=
  ⟨l₁, l₃, by simp⟩

theorem splitChar_length (sep : Char) (t : List Char) :
    (splitChar sep t).length = t.count sep + 1 := by
  induction t with
  | nil => simp [splitChar]
  | cons c rest ih =>
    simp only [splitChar]
    by_cases h : c = sep
    · subst h
      simp [List.count_cons, ih]
    · simp only [if_neg h]
      rcases hs : splitChar sep rest with _ | ⟨l, ls⟩
      · exact absurd hs (splitChar_ne_nil sep rest)
      · rw [hs] at ih
        simp only [List.count_cons, List.length_cons] at ih ⊢
        simp [h, ih]

theorem generateBlock_research_first (article sentiment now : String)
    (oracle : Nat → Except Unit String) (i : Nat)
    (file : Option (List InsightRecord)) :
    ∃ rest, (generateBlock article sentiment now oracle i file).calls =
      RemoteCall.researchC :: rest := by
  unfold generateBlock
  cases query_openrouter (oracle i) with
  | error e => exact ⟨_, rfl⟩
  | ok r =>
    cases query_openrouter (oracle (i + 1)) with
    | error e => exact ⟨_, rfl⟩
    | ok r2 =>
      cases query_openrouter (oracle (i + 2)) with
      | error e => exact ⟨_, rfl⟩
      | ok r3 =>
        cases query_openrouter (oracle (i + 3)) with
        | error e => exact ⟨_, rfl⟩
        | ok r4 => exact ⟨_, rfl⟩

-- ## Claim theorems

/-- **C1**: if the research call (the first model call of full generation)
raises a transport error, the run aborts before the tag, narrative, and
explanation steps — the call trace of the button run is exactly the
sentiment preview call followed by the failed research call — and
`save_insight` is never reached: nothing is saved and the store file is
unchanged. -/
theorem C1_research_error_aborts (article now : String)
    (oracle : Nat → Except Unit String) (file : Option (List InsightRecord))
    (ha : article ≠ "") (hr : oracle 1 = Except.error ()) :
    (scriptRun article true now oracle file).calls =
      [RemoteCall.sentimentC, RemoteCall.researchC] ∧
    (scriptRun article true now oracle file).saved = none ∧
    (scriptRun article true now oracle file).store = file := by
  rcases h0 : oracle 0 with e0 | s0 <;>
    simp [scriptRun, if_neg ha, generateBlock, query_openrouter, h0, hr]

/-- Witness for C1 at a concrete run. -/
theorem C1_witness :
    (("A" : String) ≠ "" ∧
      (fun n => if n = 1 then (Except.error () : Except Unit String)
        else Except.ok "x") 1 = Except.error ()) ∧
    ((scriptRun "A" true "t"
        (fun n => if n = 1 then (Except.error () : Except Unit String)
          else Except.ok "x") none).calls =
      [RemoteCall.sentimentC, RemoteCall.researchC] ∧
    (scriptRun "A" true "t"
        (fun n => if n = 1 then (Except.error () : Except Unit String)
          else Except.ok "x") none).saved = none ∧
    (scriptRun "A" true "t"
        (fun n => if n = 1 then (Except.error () : Except Unit String)
          else Except.ok "x") none).store = none) :=
  ⟨⟨by decide, rfl⟩,
    C1_research_error_aborts "A" "t" _ none (by decide) rfl⟩

/-- **C2**: the sentiment call is made eagerly on every script run with a
non-empty article (a button-less run makes exactly that one call), and a
full-generation run makes it again as its first remote call before the four
generation calls; the persisted record's sentiment is the (stripped)
response of this run's own sentiment call, not a reused earlier value. -/
theorem C2_sentiment_eager_and_recomputed (article now : String)
    (resp : Nat → String) (file : Option (List InsightRecord))
    (ha : article ≠ "") :
    (scriptRun article false now (fun n => Except.ok (resp n)) file).calls =
      [RemoteCall.sentimentC] ∧
    (scriptRun article true now (fun n => Except.ok (resp n)) file).calls =
      [RemoteCall.sentimentC, RemoteCall.researchC, RemoteCall.tagC,
        RemoteCall.narrativeC, RemoteCall.explanationC] ∧
    ((scriptRun article true now (fun n => Except.ok (resp n)) file).saved).map
        InsightRecord.sentiment = some (pyStripStr (resp 0)) := by
  refine ⟨?_, ?_, ?_⟩ <;>
    simp only [scriptRun, if_neg ha, generateBlock, query_openrouter,
      if_true, Option.map_some] <;> rfl

/-- Witness for C2 at a concrete run. -/
theorem C2_witness :
    ("A" : String) ≠ "" ∧
    ((scriptRun "A" false "t" (fun n => Except.ok ((fun _ => "x") n)) none).calls =
      [RemoteCall.sentimentC] ∧
    (scriptRun "A" true "t" (fun n => Except.ok ((fun _ => "x") n)) none).calls =
      [RemoteCall.sentimentC, RemoteCall.researchC, RemoteCall.tagC,
        RemoteCall.narrativeC, RemoteCall.explanationC] ∧
    ((scriptRun "A" true "t" (fun n => Except.ok ((fun _ => "x") n)) none).saved).map
        InsightRecord.sentiment = some (pyStripStr ((fun _ => "x") 0))) :=
  ⟨by decide, C2_sentiment_eager_and_recomputed "A" "t" (fun _ => "x") none (by decide)⟩

/-- **C3 counterexample**: for the empty narrative response, the derived
`why_matters` is `""`, not the claimed `"N/A"`: Python's
`"".split("\n")` is `[""]`, a truthy non-empty list, so the `"N/A"` branch
is not taken. -/
theorem C3_counterexample_empty_narrative : deriveWhyMatters "" ≠ "N/A" := by
  decide

/-- **C3 (amended)**: when the narrative model response is the empty
string, `insight_lines` is `[""]` and the derived `why_matters` is the
empty string `""` (the `"N/A"` placeholder branch is unreachable). -/
theorem C3_empty_narrative_amended :
    insightLines "" = [""] ∧ deriveWhyMatters "" = "" := by
  constructor <;> decide

/-- **C4**: `load_insights` on a missing store file returns the empty
sequence, and after `save_insight r` on any prior contents, `load_insights`
returns the prior sequence with `r` appended as its last element (the
element is `r` itself, so every field matches). -/
theorem C4_store_append_roundtrip :
    load_insights none = [] ∧
    ∀ (file : Option (List InsightRecord)) (r : InsightRecord),
      load_insights (save_insight file r) = load_insights file ++ [r] ∧
      (load_insights (save_insight file r)).getLast? = some r := by
  refine ⟨rfl, fun file r => ⟨rfl, ?_⟩⟩
  simp [save_insight, load_insights]

/-- **C5**: for every non-empty article (and every research-context /
insight argument), each of the five prompt builders returns a string
containing its main input — the article text, or for the explanation
builder the insight text — verbatim as a contiguous substring. -/
theorem C5_prompts_embed_input (a ctx ins : String)
    (_ha : a ≠ "") (_hi : ins ≠ "") :
    a.data <:+: (generate_prompt a ctx).data ∧
    a.data <:+: (generate_research_prompt a).data ∧
    a.data <:+: (generate_tag_prompt a).data ∧
    a.data <:+: (generate_sentiment_prompt a).data ∧
    ins.data <:+: (generate_explanation_prompt ins).data := by
  refine ⟨?_, ?_, ?_, ?_, ?_⟩ <;>
    · simp only [generate_prompt, generate_research_prompt, generate_tag_prompt,
        generate_sentiment_prompt, generate_explanation_prompt,
        String.data_append, List.append_assoc]
      exact midSegment _ _ _

/-- Witness for C5 at concrete inputs. -/
theorem C5_witness :
    (("A" : String) ≠ "" ∧ ("I" : String) ≠ "") ∧
    (("A" : String).data <:+: (generate_prompt "A" "C").data ∧
     ("A" : String).data <:+: (generate_research_prompt "A").data ∧
     ("A" : String).data <:+: (generate_tag_prompt "A").data ∧
     ("A" : String).data <:+: (generate_sentiment_prompt "A").data ∧
     ("I" : String).data <:+: (generate_explanation_prompt "I").data) :=
  ⟨⟨by decide, by decide⟩,
    C5_prompts_embed_input "A" "C" "I" (by decide) (by decide)⟩

/-- **C7**: the tag response is split on commas and each piece stripped,
order preserved, no dedup, no filtering: the scenario response yields
exactly its three tags, and in general the number of tags is the number of
commas plus one (so nothing is ever dropped). -/
theorem C7_tags_comma_split (r : String) :
    pyTags "Finance, Policy, Inflation" = ["Finance", "Policy", "Inflation"] ∧
    (pyTags r).length = r.data.count ',' + 1 := by
  constructor
  · decide
  · simp [pyTags, splitChar_length]

/-- **C8**: highlighting with the empty keyword list is the identity. -/
theorem C8_highlight_nil_keywords (text : String) :
    highlight_keywords text [] = text := rfl

/-- **C9**: if the eager sentiment preview's remote call fails, the
exception is recovered locally — the sentiment value becomes the literal
placeholder `"Error detecting sentiment."` on any run — and the rest of
the flow is not blocked: a button run still proceeds into the generation
block (its call trace continues with the research call). -/
theorem C9_sentiment_error_recovered (article now : String)
    (oracle : Nat → Except Unit String) (file : Option (List InsightRecord))
    (button : Bool) (ha : article ≠ "") (hs : oracle 0 = Except.error ()) :
    (scriptRun article button now oracle file).sentiment =
      "Error detecting sentiment." ∧
    ∃ rest, (scriptRun article true now oracle file).calls =
      RemoteCall.sentimentC :: RemoteCall.researchC :: rest := by
  constructor
  · cases button <;> simp [scriptRun, if_neg ha, query_openrouter, hs]
  · obtain ⟨rest, hres⟩ :=
      generateBlock_research_first article "Error detecting sentiment." now oracle 1 file
    exact ⟨rest, by simp [scriptRun, if_neg ha, query_openrouter, hs, hres]⟩

/-- Witness for C9 at a concrete run. -/
theorem C9_witness :
    (("A" : String) ≠ "" ∧
      (fun _ => (Except.error () : Except Unit String)) 0 = Except.error ()) ∧
    ((scriptRun "A" false "t" (fun _ => (Except.error () : Except Unit String))
        none).sentiment = "Error detecting sentiment." ∧
     ∃ rest, (scriptRun "A" true "t"
        (fun _ => (Except.error () : Except Unit String)) none).calls =
      RemoteCall.sentimentC :: RemoteCall.researchC :: rest) :=
  ⟨⟨by decide, rfl⟩,
    C9_sentiment_error_recovered "A" "t" _ none false (by decide) rfl⟩

/-- **C10**: for every narrative response string, splitting on newlines and
rejoining is the identity (so `full_insight` — the displayed, downloaded,
and persisted value — equals the model's narrative output exactly), the
line list is never empty (the `"N/A"` branch is unreachable), and
`why_matters` is the prefix of the narrative up to the first newline (the
whole string when there is none). -/
theorem C10_narrative_derivation_roundtrip (s : String) :
    deriveFullInsight s = s ∧
    insightLines s ≠ [] ∧
    deriveWhyMatters s = ⟨s.data.takeWhile (fun c => c != '\n')⟩ := by
  obtain ⟨d⟩ := s
  refine ⟨?_, ?_, ?_⟩
  · show String.mk (joinChar '\n' (splitChar '\n' d)) = ⟨d⟩
    rw [joinChar_splitChar]
  · simp [insightLines, splitChar_ne_nil]
  · rcases hs : splitChar '\n' d with _ | ⟨l, ls⟩
    · exact absurd hs (splitChar_ne_nil _ _)
    · have hh := splitChar_head '\n' d
      rw [hs] at hh
      simp only [List.head?, Option.some.injEq] at hh
      simp [deriveWhyMatters, insightLines, hs, hh]

-- ## Standalone occurrences and wrapped-occurrence counting (for C6)

/-- The standalone (whole-word) occurrence condition: the keyword matches
case-insensitively at the current position, the character before the
position is not a word character, and neither is the character after the
matched region (ends of the string count as non-word). -/
def saCond (k : List Char) (prevW : Bool) (t : List Char) : Bool :=
  !prevW && ciPref k t && !(wordB (t.drop k.length))

/-- Number of positions of `t` at which `k` occurs as a standalone word
(`prevW`: whether the character just before `t` is a word character). -/
def saCount (k : List Char) (prevW : Bool) : List Char → Nat
  | [] => 0
  | c :: rest =>
    (if saCond k prevW (c :: rest) then 1 else 0) + saCount k (isWordChar c) rest

/-- Number of standalone (whole-word, case-insensitive) occurrences of the
keyword `k` in `text`. -/
def standaloneCount (k text : List Char) : Nat := saCount k false text

/-- Greedy left-to-right count of non-overlapping occurrences of the
(non-empty) pattern `p` in `t`. -/
def countOccs (p : List Char) : List Char → Nat
  | [] => 0
  | c :: rest =>
    if p ≠ [] ∧ p <+: (c :: rest) then 1 + countOccs p ((c :: rest).drop p.length)
    else countOccs p rest
termination_by t => t.length
decreasing_by
  all_goals simp [List.length_drop]
  all_goals rename_i hp
  all_goals have hkp := List.length_pos.mpr hp.1
  all_goals omega

-- ### Character-level lemmas

theorem lowerId_isWordChar {a b : Char} (h : lowerId a = lowerId b) :
    isWordChar a = isWordChar b := by
  rw [Bool.eq_iff_iff]
  simp only [isWordChar, Bool.or_eq_true, Bool.and_eq_true, decide_eq_true_eq,
    beq_iff_eq]
  unfold lowerId at h
  split_ifs at h <;> omega

theorem star_not_word : isWordChar '*' = false := by decide

theorem ciPref_append_self (k r : List Char) : ciPref k (k ++ r) = true := by
  induction k with
  | nil => simp [ciPref]
  | cons a as ih => simp [ciPref, ih]

theorem ciPref_nil_false (k : List Char) (hk : k ≠ []) : ciPref k [] = false := by
  rcases k with _ | ⟨a, as⟩
  · exact absurd rfl hk
  · rfl

theorem ciPref_take_all_word (k : List Char) (hw : k.all isWordChar = true) :
    ∀ t : List Char, ciPref k t = true → (t.take k.length).all isWordChar = true := by
  induction k with
  | nil => intro t _; simp
  | cons a as ih =>
    intro t hp
    rcases t with _ | ⟨b, bs⟩
    · simp [ciPref] at hp
    · simp only [ciPref, Bool.and_eq_true, beq_iff_eq] at hp
      simp only [List.all_cons, Bool.and_eq_true] at hw
      simp only [List.length_cons, List.take_succ_cons, List.all_cons,
        Bool.and_eq_true]
      exact ⟨by rw [← lowerId_isWordChar hp.1]; exact hw.1, ih hw.2 bs hp.2⟩

theorem ciPref_wordB (k t : List Char) (hk : k ≠ []) (hw : k.all isWordChar = true)
    (hp : ciPref k t = true) : wordB t = true := by
  rcases k with _ | ⟨a, as⟩
  · exact absurd rfl hk
  · rcases t with _ | ⟨b, bs⟩
    · simp [ciPref] at hp
    · simp only [ciPref, Bool.and_eq_true, beq_iff_eq] at hp
      simp only [List.all_cons, Bool.and_eq_true] at hw
      show isWordChar b = true
      rw [← lowerId_isWordChar hp.1]
      exact hw.1

theorem ciPref_wordB_last :
    ∀ k : List Char, k ≠ [] → k.all isWordChar = true →
      ∀ t : List Char, ciPref k t = true → wordB (t.drop (k.length - 1)) = true := by
  intro k
  induction k with
  | nil => intro h; exact absurd rfl h
  | cons a as ih =>
    intro _ hw t hp
    rcases t with _ | ⟨b, bs⟩
    · simp [ciPref] at hp
    · simp only [ciPref, Bool.and_eq_true, beq_iff_eq] at hp
      simp only [List.all_cons, Bool.and_eq_true] at hw
      rcases as with _ | ⟨a2, as2⟩
      · show wordB ((b :: bs).drop 0) = true
        exact ciPref_wordB [a] (b :: bs) (by simp) (by simp [hw.1])
          (by simp [ciPref, hp.1])
      · have hlen : (a :: a2 :: as2).length - 1 = (a2 :: as2).length - 1 + 1 := by
          simp
        rw [hlen, List.drop_succ_cons]
        exact ih (by simp) hw.2 bs hp.2

-- ### Match-condition and scanner unfolding lemmas

theorem matchWB_nil_false (k : List Char) (hk : k ≠ []) (s : Bool) :
    matchWB k s [] = false := by
  simp [matchWB, ciPref_nil_false k hk]

theorem matchWB_eq_saCond (k : List Char) (hk : k ≠ [])
    (hw : k.all isWordChar = true) (s : Bool) (t : List Char) :
    matchWB k s t = saCond k s t := by
  cases hp : ciPref k t with
  | false =>
    rcases k with _ | ⟨a, as⟩
    · exact absurd rfl hk
    · simp [matchWB, saCond, hp]
  | true =>
    have h1 := ciPref_wordB k t hk hw hp
    have h2 := ciPref_wordB_last k hk hw t hp
    rcases k with _ | ⟨a, as⟩
    · exact absurd rfl hk
    · simp only [List.length_cons, Nat.add_sub_cancel] at h2
      simp [matchWB, saCond, hp, h1, h2]

theorem reSub_nil (k rep : List Char) (s : Bool) :
    reSub k rep s [] = if matchWB k s [] then rep else [] := by
  simp only [reSub]

theorem reSub_cons_match (k rep : List Char) (s : Bool) (c : Char)
    (rest : List Char) (hk : k ≠ []) (hm : matchWB k s (c :: rest) = true) :
    reSub k rep s (c :: rest) =
      rep ++ reSub k rep (wordB ((c :: rest).drop (k.length - 1)))
        ((c :: rest).drop k.length) := by
  simp only [reSub, hm, if_true, dif_neg hk]

theorem reSub_cons_skip (k rep : List Char) (s : Bool) (c : Char)
    (rest : List Char) (hm : matchWB k s (c :: rest) = false) :
    reSub k rep s (c :: rest) = c :: reSub k rep (isWordChar c) rest := by
  simp only [reSub, hm]
  simp

theorem reSub_nil_of_ne (k rep : List Char) (hk : k ≠ []) (s : Bool) :
    reSub k rep s [] = [] := by
  simp [reSub_nil, matchWB_nil_false k hk]

-- ### Counting lemmas

theorem countOccs_append_self (p x : List Char) (hp : p ≠ []) :
    countOccs p (p ++ x) = 1 + countOccs p x := by
  rcases p with _ | ⟨a, as⟩
  · exact absurd rfl hp
  · rw [List.cons_append, countOccs]
    rw [if_pos]
    · rw [← List.cons_append, List.drop_left]
    · exact ⟨by simp, by rw [← List.cons_append]; exact List.prefix_append _ _⟩

theorem countOccs_cons_skip (p : List Char) (c : Char) (rest : List Char)
    (h : ¬ p <+: (c :: rest)) : countOccs p (c :: rest) = countOccs p rest := by
  rw [countOccs, if_neg]
  intro hcon
  exact h hcon.2

theorem countOccs_pos_occurs (p : List Char) :
    ∀ t : List Char, 1 ≤ countOccs p t → p <:+: t := by
  intro t
  induction t with
  | nil => intro h; simp [countOccs] at h
  | cons c rest ih =>
    intro h
    by_cases hpre : p <+: (c :: rest)
    · exact List.IsPrefix.isInfix hpre
    · rw [countOccs_cons_skip p c rest hpre] at h
      exact List.infix_cons (ih h)

theorem saCount_word_append (k : List Char) :
    ∀ m r : List Char, m.all isWordChar = true →
      saCount k true (m ++ r) = saCount k true r := by
  intro m
  induction m with
  | nil => intro r _; rfl
  | cons a m' ih =>
    intro r hw
    simp only [List.all_cons, Bool.and_eq_true] at hw
    rw [List.cons_append, saCount]
    have hc : saCond k true (a :: (m' ++ r)) = false := by
      simp [saCond]
    rw [hc, hw.1]
    simp [ih r hw.2]

-- ### No spurious wrapped occurrence: the peel argument

theorem peelWord (k : List Char) (hk : k ≠ []) :
    ∀ m : List Char, m ≠ [] → m.all isWordChar = true →
      ∀ (t : List Char) (s : Bool),
        (m ++ ['*', '*']) <+: reSub k (wrapRep k) s t →
        matchWB k s t = false ∧
          ∃ r, t = m ++ r ∧ ['*', '*'] <+: reSub k (wrapRep k) true r := by
  intro m
  induction m with
  | nil => intro h; exact absurd rfl h
  | cons a m' ih =>
    intro _ hw t s hpre
    simp only [List.all_cons, Bool.and_eq_true] at hw
    rcases t with _ | ⟨c, rest⟩
    · rw [reSub_nil_of_ne k (wrapRep k) hk] at hpre
      simp at hpre
    · cases hm : matchWB k s (c :: rest) with
      | true =>
        rw [reSub_cons_match k (wrapRep k) s c rest hk hm] at hpre
        simp only [wrapRep, List.cons_append, List.append_assoc] at hpre
        rw [List.cons_prefix_cons] at hpre
        obtain ⟨ha, -⟩ := hpre
        rw [ha, star_not_word] at hw
        exact absurd hw.1 (by simp)
      | false =>
        rw [reSub_cons_skip k (wrapRep k) s c rest hm] at hpre
        rw [List.cons_append, List.cons_prefix_cons] at hpre
        obtain ⟨hac, htail⟩ := hpre
        subst hac
        rw [hw.1] at htail
        rcases hm' : m' with _ | ⟨a2, m''⟩
        · subst hm'
          exact ⟨rfl, rest, by simp, by simpa using htail⟩
        · subst hm'
          obtain ⟨-, r, hr, hpre2⟩ := ih (by simp) hw.2 rest true htail
          exact ⟨rfl, r, by rw [hr]; rfl, hpre2⟩

theorem notPre_k_stars (k : List Char) (hk : k ≠ [])
    (hw : k.all isWordChar = true) :
    ∀ t : List Char, ¬ ((k ++ ['*', '*']) <+: reSub k (wrapRep k) false t) := by
  intro t hpre
  obtain ⟨hm, r, hr, hpre2⟩ := peelWord k hk k hk hw t false hpre
  subst hr
  rw [matchWB_eq_saCond k hk hw] at hm
  have hword : wordB r = true := by
    simp [saCond, ciPref_append_self, List.drop_left] at hm
    exact hm
  rcases r with _ | ⟨w, r2⟩
  · simp [wordB] at hword
  · have hw2 : isWordChar w = true := hword
    have hm2 : matchWB k true (w :: r2) = false := by
      rw [matchWB_eq_saCond k hk hw]
      simp [saCond]
    rw [reSub_cons_skip k (wrapRep k) true w r2 hm2] at hpre2
    rw [List.cons_prefix_cons] at hpre2
    obtain ⟨hcw, -⟩ := hpre2
    rw [← hcw, star_not_word] at hw2
    exact absurd hw2 (by simp)

theorem notPre_star_k_stars (k : List Char) (hk : k ≠ [])
    (hw : k.all isWordChar = true) :
    ∀ t : List Char, ¬ (('*' :: (k ++ ['*', '*'])) <+: reSub k (wrapRep k) false t) := by
  intro t hpre
  rcases t with _ | ⟨c, rest⟩
  · rw [reSub_nil_of_ne k (wrapRep k) hk] at hpre
    simp at hpre
  · cases hm : matchWB k false (c :: rest) with
    | true =>
      rw [reSub_cons_match k (wrapRep k) false c rest hk hm] at hpre
      simp only [wrapRep, List.cons_append, List.append_assoc] at hpre
      rw [List.cons_prefix_cons] at hpre
      obtain ⟨-, hpre⟩ := hpre
      rcases hkc : k with _ | ⟨a, as⟩
      · exact absurd hkc hk
      · rw [hkc, List.cons_append, List.cons_prefix_cons] at hpre
        obtain ⟨ha, -⟩ := hpre
        rw [hkc] at hw
        simp only [List.all_cons, Bool.and_eq_true] at hw
        rw [ha, star_not_word] at hw
        exact absurd hw.1 (by simp)
    | false =>
      rw [reSub_cons_skip k (wrapRep k) false c rest hm] at hpre
      rw [List.cons_prefix_cons] at hpre
      obtain ⟨hc, hpre⟩ := hpre
      rw [← hc, star_not_word] at hpre
      exact notPre_k_stars k hk hw rest hpre

theorem wrapRep_not_pre_of_skip (k : List Char) (hk : k ≠ [])
    (hw : k.all isWordChar = true) (s : Bool) (c : Char) (rest : List Char)
    (hm : matchWB k s (c :: rest) = false) :
    ¬ (wrapRep k <+: reSub k (wrapRep k) s (c :: rest)) := by
  intro hpre
  rw [reSub_cons_skip k (wrapRep k) s c rest hm] at hpre
  simp only [wrapRep, List.cons_append] at hpre
  rw [List.cons_prefix_cons] at hpre
  obtain ⟨hc, hpre⟩ := hpre
  rw [← hc, star_not_word] at hpre
  exact notPre_star_k_stars k hk hw rest hpre

-- ### The main counting theorem for single-keyword highlighting

theorem countOccs_reSub (k : List Char) (hk : k ≠ [])
    (hw : k.all isWordChar = true) :
    ∀ (n : Nat) (t : List Char), t.length ≤ n → ∀ s : Bool,
      countOccs (wrapRep k) (reSub k (wrapRep k) s t) = saCount k s t := by
  intro n
  induction n with
  | zero =>
    intro t ht s
    have hnil : t = [] := List.length_eq_zero.mp (Nat.le_zero.mp ht)
    subst hnil
    rw [reSub_nil_of_ne k _ hk]
    simp [countOccs, saCount]
  | succ n ih =>
    intro t ht s
    rcases t with _ | ⟨c, rest⟩
    · rw [reSub_nil_of_ne k _ hk]
      simp [countOccs, saCount]
    · simp only [List.length_cons, Nat.add_le_add_iff_right] at ht
      cases hm : matchWB k s (c :: rest) with
      | true =>
        rw [reSub_cons_match k _ s c rest hk hm]
        have hcp : ciPref k (c :: rest) = true := by
          have hm' := hm
          simp only [matchWB, Bool.and_eq_true] at hm'
          exact hm'.1.2
        have hlast : wordB ((c :: rest).drop (k.length - 1)) = true :=
          ciPref_wordB_last k hk hw (c :: rest) hcp
        rw [hlast]
        rw [countOccs_append_self _ _ (by simp [wrapRep])]
        have hkpos := List.length_pos.mpr hk
        have hlen : ((c :: rest).drop k.length).length ≤ n := by
          simp only [List.length_drop, List.length_cons]
          omega
        rw [ih _ hlen true]
        have hsc : saCond k s (c :: rest) = true := by
          rw [← matchWB_eq_saCond k hk hw]
          exact hm
        rw [saCount, hsc]
        have hcw : isWordChar c = true := ciPref_wordB k (c :: rest) hk hw hcp
        rw [hcw]
        have hdrop : rest.drop (k.length - 1) = (c :: rest).drop k.length := by
          rcases k with _ | ⟨a, as⟩
          · exact absurd rfl hk
          · simp
        have hsplit : rest = rest.take (k.length - 1) ++ (c :: rest).drop k.length := by
          rw [← hdrop, List.take_append_drop]
        have hallm : (rest.take (k.length - 1)).all isWordChar = true := by
          have htake := ciPref_take_all_word k hw (c :: rest) hcp
          rcases k with _ | ⟨a, as⟩
          · exact absurd rfl hk
          · simp only [List.length_cons, List.take_succ_cons, List.all_cons,
              Bool.and_eq_true, Nat.add_sub_cancel] at htake ⊢
            exact htake.2
        conv_rhs => rw [hsplit]
        rw [saCount_word_append k _ _ hallm]
        simp
      | false =>
        rw [reSub_cons_skip k _ s c rest hm]
        rw [countOccs_cons_skip _ _ _ (fun hpre =>
          wrapRep_not_pre_of_skip k hk hw s c rest hm
            (by rw [reSub_cons_skip k _ s c rest hm]; exact hpre))]
        rw [ih rest ht (isWordChar c)]
        have hsc : saCond k s (c :: rest) = false := by
          rw [← matchWB_eq_saCond k hk hw]
          exact hm
        rw [saCount, hsc]
        simp

theorem countOccs_reSub_eq_standalone (k text : List Char) (hk : k ≠ [])
    (hw : k.all isWordChar = true) :
    countOccs (wrapRep k) (reSub k (wrapRep k) false text) =
      standaloneCount k text :=
  countOccs_reSub k hk hw text.length text (le_refl _) false

/-- **C6**: for every text and every keyword that occurs in it as a
standalone (whole-word) token — a non-empty run of word characters, matched
case-insensitively and never inside a longer word — the highlighted text
contains the wrapped form `**keyword**`, and the number of non-overlapping
wrapped occurrences in the output equals the number of standalone
occurrences of the keyword in the text. -/
theorem C6_highlight_whole_word (text k : String) (hk : k.data ≠ [])
    (hw : k.data.all isWordChar = true)
    (hocc : 1 ≤ standaloneCount k.data text.data) :
    wrapRep k.data <:+: (highlight_keywords text [k]).data ∧
    countOccs (wrapRep k.data) (highlight_keywords text [k]).data =
      standaloneCount k.data text.data := by
  have hout : (highlight_keywords text [k]).data =
      reSub k.data (wrapRep k.data) false text.data := rfl
  rw [hout]
  have hcnt := countOccs_reSub_eq_standalone k.data text.data hk hw
  refine ⟨countOccs_pos_occurs _ _ ?_, hcnt⟩
  rw [hcnt]
  exact hocc

/-- Witness for C6 at a concrete text and keyword. -/
theorem C6_witness :
    (("market" : String).data ≠ [] ∧
      ("market" : String).data.all isWordChar = true ∧
      1 ≤ standaloneCount ("market" : String).data ("The market fell" : String).data) ∧
    (wrapRep ("market" : String).data <:+:
        (highlight_keywords "The market fell" ["market"]).data ∧
      countOccs (wrapRep ("market" : String).data)
          (highlight_keywords "The market fell" ["market"]).data =
        standaloneCount ("market" : String).data ("The market fell" : String).data) :=
  ⟨⟨by decide, by decide, by decide⟩,
    C6_highlight_whole_word "The market fell" "market" (by decide) (by decide) (by decide)⟩
